import Mathlib

/-!
# Verification of the M5DialKeys polling loop (src/src/main.cpp)

Shallow embedding of the input-interpretation logic of `loop()` in
`src/src/main.cpp`: touch-zone classification and touch-begin actions,
encoder delta-to-step conversion, the button short/long-press classifier
with auto-repeat, and the one-shot shift lock.

Modelling conventions:
* the mutable globals of the sketch become fields of `S`;
* keyboard output is abstracted to a list of `Intent`s emitted during the
  poll, in emission order (each `Keyboard` transaction is one intent);
* `draw_keys(z)` calls are abstracted to a list of `Int` render arguments
  (the `pressed_zone` argument), so that "visual feedback only" is visible;
* `millis()` is a single `Nat` per poll (the loop body runs in well under
  one millisecond next to its 3000/500 ms thresholds); `uint32_t`
  subtraction of monotone timestamps coincides with `Nat` subtraction;
* `long` encoder positions are `Int` (no overflow is at issue in the
  claims), and the C++ divisions `delta / 4` and `(-delta) / 4` are only
  ever applied to positive values, so they are `Nat` division here.
-/

namespace M5DialKeys

/-- The abstract output intents of one poll.  A step intent or Enter carries
the flag of whether it was emitted with the shift chord
(`sendAsciiWithOptionalShift` with `shift_lock` active). -/
inductive Intent : Type
  | stepRight (shifted : Bool)
  | stepLeft (shifted : Bool)
  | enter (shifted : Bool)
  | delete
  | escape
  deriving DecidableEq, Repr

/-- The touch sample states of `m5::touch_state_t` that `loop()`
distinguishes: `none`, `touch_begin`, `touch_end`, and every other
touch-active state (`touch`, `hold`, `drag`, ... ) collapsed to
`touch_hold`, since the code only tests `!= none`, `== touch_begin` and
`== touch_end`. -/
inductive TouchState : Type
  | none
  | touch_begin
  | touch_hold
  | touch_end
  deriving DecidableEq, Repr

/-- The mutable globals of `main.cpp` (rendering colours excluded). -/
structure S : Type where
  prev_pos : Int
  shift_lock : Bool
  last_touch_zone : Int
  press_start_ms : Nat
  last_delete_ms : Nat
  delete_mode_active : Bool
  deriving DecidableEq, Repr

/-- The zone computation of `loop()` lines 113-119:
`-1` none, `0` ESC, `1` Shift. -/
def touchZone (ts : TouchState) (x w : Int) : Int :=
  if ts ≠ TouchState.none then
    (if 0 ≤ x ∧ x < w then (if x < w / 2 then 0 else 1) else -1)
  else -1

/-- Lines 112-140 of `loop()`: zone classification, zone-change redraw,
touch-begin actions (ESC key, shift-lock toggle), touch-end redraw.
Returns the new state, the intents emitted, and the `draw_keys` arguments. -/
def loopTouch (s : S) (ts : TouchState) (x w : Int) : S × List Intent × List Int :=
  let zone := touchZone ts x w
  let p1 : S × List Int :=
    if zone ≠ s.last_touch_zone then
      ({ s with last_touch_zone := zone }, [zone])
    else (s, [])
  let p2 : S × List Intent × List Int :=
    if ts = TouchState.touch_begin then
      if zone = 0 then (p1.1, [Intent.escape], [])
      else if zone = 1 then
        ({ p1.1 with shift_lock := !p1.1.shift_lock }, [], [zone])
      else (p1.1, [], [])
    else (p1.1, [], [])
  let r3 : List Int := if ts = TouchState.touch_end then [(-1 : Int)] else []
  (p2.1, p2.2.1, p1.2 ++ p2.2.2 ++ r3)

/-- One iteration of the `for` loops at lines 147-160 / 165-178, iterated
`n` times: each step emits one intent; an emission through
`sendAsciiWithOptionalShift` while `shift_lock` is set sends the shifted
character, clears the lock and redraws (`draw_keys(-1)`).  `mk` is
`Intent.stepRight` or `Intent.stepLeft`. -/
def emitSteps (mk : Bool → Intent) : Nat → Bool → List Intent × Bool × List Int
  | 0, sh => ([], sh, [])
  | n + 1, sh =>
    if sh then
      let e := emitSteps mk n false
      (mk true :: e.1, e.2.1, -1 :: e.2.2)
    else
      let e := emitSteps mk n sh
      (mk false :: e.1, e.2.1, e.2.2)

/-- Lines 142-182 of `loop()`: encoder delta handling.  `delta / 4` and
`(-delta) / 4` are C++ `long` divisions of nonnegative values, hence
`Int.toNat _ / 4`. -/
def encoderStep (s : S) (curr : Int) : S × List Intent × List Int :=
  let delta := curr - s.prev_pos
  if delta = 0 then (s, [], [])
  else if 0 < delta then
    let steps := delta.toNat / 4
    let e := emitSteps Intent.stepRight steps s.shift_lock
    ({ s with shift_lock := e.2.1, prev_pos := s.prev_pos + (steps : Int) * 4 }, e.1, e.2.2)
  else
    let steps := (-delta).toNat / 4
    let e := emitSteps Intent.stepLeft steps s.shift_lock
    ({ s with shift_lock := e.2.1, prev_pos := s.prev_pos - (steps : Int) * 4 }, e.1, e.2.2)

/-- Line 212: `press_start_ms ? (millis() - press_start_ms) : 0`. -/
def held_ms (press_start_ms now : Nat) : Nat :=
  if press_start_ms ≠ 0 then now - press_start_ms else 0

/-- Lines 184-218 of `loop()`: the button classifier.  `wasP`, `wasR`, `pf`
are the per-poll results of `BtnA.wasPressed()`, `BtnA.wasReleased()` and
`BtnA.pressedFor(3000)` (stable within one poll), `now` is `millis()`. -/
def buttonStep (s : S) (wasP wasR pf : Bool) (now : Nat) : S × List Intent × List Int :=
  let s1 :=
    if s.delete_mode_active ∧ wasR then
      { s with delete_mode_active := false, last_delete_ms := 0 }
    else s
  let s2 := if wasP then { s1 with press_start_ms := now } else s1
  let p3 : S × List Intent :=
    if ¬s2.delete_mode_active ∧ pf then
      ({ s2 with delete_mode_active := true, last_delete_ms := now }, [Intent.delete])
    else (s2, [])
  let p4 : S × List Intent :=
    if p3.1.delete_mode_active ∧ ¬wasR ∧ 500 ≤ now - p3.1.last_delete_ms then
      ({ p3.1 with last_delete_ms := now }, [Intent.delete])
    else (p3.1, [])
  let p5 : S × List Intent × List Int :=
    if ¬p4.1.delete_mode_active ∧ wasR then
      if held_ms p4.1.press_start_ms now < 3000 then
        if p4.1.shift_lock then
          ({ p4.1 with press_start_ms := 0, shift_lock := false },
            [Intent.enter true], [(-1 : Int)])
        else
          ({ p4.1 with press_start_ms := 0 }, [Intent.enter false], [])
      else ({ p4.1 with press_start_ms := 0 }, [], [])
    else (p4.1, [], [])
  (p5.1, p3.2 ++ p4.2 ++ p5.2.1, p5.2.2)

/-- The raw library results one `loop()` iteration consumes. -/
structure PollInput : Type where
  touch : TouchState
  x : Int
  w : Int
  enc : Int
  wasP : Bool
  wasR : Bool
  pf : Bool
  now : Nat
  deriving DecidableEq, Repr

/-- One full iteration of `loop()`: the touch block (lines 112-140), then
the encoder block (lines 142-182), then the button block (lines 184-218),
in source order; intents and renders are concatenated in emission order. -/
def loopStep (s : S) (i : PollInput) : S × List Intent × List Int :=
  let t := loopTouch s i.touch i.x i.w
  let e := encoderStep t.1 i.enc
  let b := buttonStep e.1 i.wasP i.wasR i.pf i.now
  (b.1, t.2.1 ++ e.2.1 ++ b.2.1, t.2.2 ++ e.2.2 ++ b.2.2)

/-- Modelled from the spec: the external button sampling interface of §6
(`readButtonEdge() -> {pressed, released}` plus the monotone `now_ms()`
hold-duration measurement used by §4.3's "held continuously for ≥ 3000 ms").
The M5 button driver is not part of this repository; it is modelled as the
current level plus the timestamp of its last change. -/
structure BtnState : Type where
  pressed : Bool
  lastChange : Nat
  deriving DecidableEq, Repr

/-- Modelled from the spec: updating the button driver state with this
poll's raw level sample at time `now` (the `M5Dial.update()` at the top of
`loop()`). -/
def btnUpdate (b : BtnState) (down : Bool) (now : Nat) : BtnState :=
  if down ≠ b.pressed then ⟨down, now⟩ else b

/-- Modelled from the spec: `wasPressed()` — a rising edge in this poll. -/
def btnWasPressed (b : BtnState) (down : Bool) : Bool :=
  down && !b.pressed

/-- Modelled from the spec: `wasReleased()` — a falling edge in this poll. -/
def btnWasReleased (b : BtnState) (down : Bool) : Bool :=
  !down && b.pressed

/-- Modelled from the spec: `pressedFor(ms)` — currently pressed and held
continuously for at least `ms` milliseconds. -/
def btnPressedFor (b : BtnState) (ms now : Nat) : Bool :=
  b.pressed && decide (ms ≤ now - b.lastChange)

/-- One raw hardware sample per poll: touch sample, display width, encoder
position, button level and clock. -/
structure RawInput : Type where
  touch : TouchState
  x : Int
  w : Int
  enc : Int
  down : Bool
  now : Nat
  deriving DecidableEq, Repr

/-- A device configuration: the sketch globals plus the button driver. -/
structure Dev : Type where
  s : S
  b : BtnState
  deriving DecidableEq, Repr

/-- One `loop()` iteration over raw samples: update the button driver, then
run the loop body on the derived per-poll queries. -/
def deviceStep (d : Dev) (i : RawInput) : Dev × List Intent × List Int :=
  let b2 := btnUpdate d.b i.down i.now
  let o :=
    loopStep d.s
      ⟨i.touch, i.x, i.w, i.enc,
        btnWasPressed d.b i.down, btnWasReleased d.b i.down,
        btnPressedFor b2 3000 i.now, i.now⟩
  (⟨o.1, b2⟩, o.2.1, o.2.2)

/-- Run a sequence of polls, concatenating the emitted intents. -/
def runPolls (d : Dev) : List RawInput → Dev × List Intent
  | [] => (d, [])
  | i :: is =>
    let o := deviceStep d i
    let rest := runPolls o.1 is
    (rest.1, o.2.1 ++ rest.2)

/-- A quiet raw sample: no touch, encoder parked at `e`, button level
`down`, clock `now`, the 240-pixel round display of the device. -/
def quietInput (e : Int) (down : Bool) (now : Nat) : RawInput :=
  ⟨TouchState.none, 0, 240, e, down, now⟩

/-- The state at power-up (`setup()`): encoder reference `e`, shift lock
clear (generalised to `sh` for the shift-interaction claims), no zone, no
timestamps, repeat mode off. -/
def initS (e : Int) (sh : Bool) : S :=
  ⟨e, sh, -1, 0, 0, false⟩

/-- Run the encoder block alone over a list of successive encoder
readings (the other blocks idle when their inputs are quiet). -/
def runEnc (s : S) : List Int → S × List Intent
  | [] => (s, [])
  | r :: rs =>
    let o := encoderStep s r
    let rest := runEnc o.1 rs
    (rest.1, o.2.1 ++ rest.2)

/-- The signed step value of an intent: `+1` per right step, `-1` per left
step, `0` otherwise. -/
def stepValue : Intent → Int
  | Intent.stepRight _ => 1
  | Intent.stepLeft _ => -1
  | _ => 0

/-- Net signed steps of an emission sequence. -/
def netSteps (l : List Intent) : Int :=
  (l.map stepValue).sum

/-! ## Basic lemmas about the step emission loop -/

theorem emitSteps_false (mk : Bool → Intent) :
    ∀ n, emitSteps mk n false = (List.replicate n (mk false), false, []) := by
  intro n
  induction n with
  | zero => rfl
  | succ n ih => simp [emitSteps, ih, List.replicate_succ]

theorem emitSteps_true_succ (mk : Bool → Intent) (n : Nat) :
    emitSteps mk (n + 1) true =
      (mk true :: List.replicate n (mk false), false, [-1]) := by
  simp [emitSteps, emitSteps_false]

theorem emitSteps_length (mk : Bool → Intent) :
    ∀ n sh, (emitSteps mk n sh).1.length = n := by
  intro n
  induction n with
  | zero => intro sh; rfl
  | succ n ih =>
    intro sh
    by_cases h : sh = true
    · subst h
      simp [emitSteps, emitSteps_false]
    · simp at h
      subst h
      simp [emitSteps, ih]

theorem emitSteps_mem (mk : Bool → Intent) :
    ∀ n sh x, x ∈ (emitSteps mk n sh).1 → ∃ b, x = mk b := by
  intro n
  induction n with
  | zero => intro sh x hx; simp [emitSteps] at hx
  | succ n ih =>
    intro sh x hx
    by_cases h : sh = true
    · subst h
      rw [emitSteps_true_succ] at hx
      rcases List.mem_cons.mp hx with h1 | h1
      · exact ⟨true, h1⟩
      · exact ⟨false, List.eq_of_mem_replicate h1⟩
    · simp at h
      subst h
      rw [emitSteps_false] at hx
      exact ⟨false, List.eq_of_mem_replicate hx⟩

theorem netSteps_nil : netSteps [] = 0 := rfl

theorem netSteps_cons (x : Intent) (l : List Intent) :
    netSteps (x :: l) = stepValue x + netSteps l := by
  simp [netSteps]

theorem netSteps_append (l1 l2 : List Intent) :
    netSteps (l1 ++ l2) = netSteps l1 + netSteps l2 := by
  simp [netSteps]

theorem netSteps_replicate_right (n : Nat) (b : Bool) :
    netSteps (List.replicate n (Intent.stepRight b)) = n := by
  induction n with
  | zero => rfl
  | succ n ih =>
    rw [List.replicate_succ, netSteps_cons, ih]
    simp [stepValue]
    ring

theorem netSteps_replicate_left (n : Nat) (b : Bool) :
    netSteps (List.replicate n (Intent.stepLeft b)) = -n := by
  induction n with
  | zero => rfl
  | succ n ih =>
    rw [List.replicate_succ, netSteps_cons, ih]
    simp [stepValue]

theorem netSteps_emit_right (n : Nat) (sh : Bool) :
    netSteps (emitSteps Intent.stepRight n sh).1 = n := by
  cases sh with
  | false => rw [emitSteps_false]; exact netSteps_replicate_right n false
  | true =>
    cases n with
    | zero => rfl
    | succ n =>
      rw [emitSteps_true_succ, netSteps_cons, netSteps_replicate_right]
      simp [stepValue]
      ring

theorem netSteps_emit_left (n : Nat) (sh : Bool) :
    netSteps (emitSteps Intent.stepLeft n sh).1 = -n := by
  cases sh with
  | false => rw [emitSteps_false]; exact netSteps_replicate_left n false
  | true =>
    cases n with
    | zero => rfl
    | succ n =>
      rw [emitSteps_true_succ, netSteps_cons, netSteps_replicate_left]
      simp [stepValue]

/-! ## Encoder block lemmas -/

theorem encoderStep_zero (s : S) (curr : Int) (h : curr - s.prev_pos = 0) :
    encoderStep s curr = (s, [], []) := by
  simp only [encoderStep, h]
  simp

theorem encoderStep_pos (s : S) (curr : Int) (h : 0 < curr - s.prev_pos) :
    encoderStep s curr =
      ({ s with
          shift_lock := (emitSteps Intent.stepRight ((curr - s.prev_pos).toNat / 4) s.shift_lock).2.1,
          prev_pos := s.prev_pos + (((curr - s.prev_pos).toNat / 4 : Nat) : Int) * 4 },
        (emitSteps Intent.stepRight ((curr - s.prev_pos).toNat / 4) s.shift_lock).1,
        (emitSteps Intent.stepRight ((curr - s.prev_pos).toNat / 4) s.shift_lock).2.2) := by
  have h0 : ¬(curr - s.prev_pos = 0) := by omega
  simp only [encoderStep, if_neg h0, if_pos h]

theorem encoderStep_neg (s : S) (curr : Int) (h : curr - s.prev_pos < 0) :
    encoderStep s curr =
      ({ s with
          shift_lock := (emitSteps Intent.stepLeft ((-(curr - s.prev_pos)).toNat / 4) s.shift_lock).2.1,
          prev_pos := s.prev_pos - (((-(curr - s.prev_pos)).toNat / 4 : Nat) : Int) * 4 },
        (emitSteps Intent.stepLeft ((-(curr - s.prev_pos)).toNat / 4) s.shift_lock).1,
        (emitSteps Intent.stepLeft ((-(curr - s.prev_pos)).toNat / 4) s.shift_lock).2.2) := by
  have h0 : ¬(curr - s.prev_pos = 0) := by omega
  have h1 : ¬(0 < curr - s.prev_pos) := by omega
  simp only [encoderStep, if_neg h0, if_neg h1]

theorem encoderStep_prev (s : S) (curr : Int) :
    (encoderStep s curr).1.prev_pos =
      s.prev_pos + 4 * netSteps (encoderStep s curr).2.1 := by
  rcases lt_trichotomy (curr - s.prev_pos) 0 with h | h | h
  · rw [encoderStep_neg s curr h]
    simp [netSteps_emit_left]
    ring
  · rw [encoderStep_zero s curr h]
    simp [netSteps_nil]
  · rw [encoderStep_pos s curr h]
    simp [netSteps_emit_right]
    ring

theorem encoderStep_rem (s : S) (curr : Int) :
    (curr - (encoderStep s curr).1.prev_pos).natAbs < 4 := by
  rcases lt_trichotomy (curr - s.prev_pos) 0 with h | h | h
  · rw [encoderStep_neg s curr h]
    simp only
    omega
  · rw [encoderStep_zero s curr h]
    simp only
    omega
  · rw [encoderStep_pos s curr h]
    simp only
    omega

theorem encoderStep_length (s : S) (curr : Int) :
    (encoderStep s curr).2.1.length = (curr - s.prev_pos).natAbs / 4 := by
  rcases lt_trichotomy (curr - s.prev_pos) 0 with h | h | h
  · rw [encoderStep_neg s curr h]
    simp only [emitSteps_length]
    omega
  · rw [encoderStep_zero s curr h]
    simp only [List.length_nil]
    omega
  · rw [encoderStep_pos s curr h]
    simp only [emitSteps_length]
    omega

theorem runEnc_prev (rs : List Int) :
    ∀ s : S, (runEnc s rs).1.prev_pos = s.prev_pos + 4 * netSteps (runEnc s rs).2 := by
  induction rs with
  | nil => intro s; simp [runEnc, netSteps_nil]
  | cons r rs ih =>
    intro s
    simp only [runEnc, netSteps_append]
    rw [ih, encoderStep_prev]
    ring

theorem runEnc_last_rem (rs : List Int) :
    ∀ (s : S) (r : Int), (r - (runEnc s (rs ++ [r])).1.prev_pos).natAbs < 4 := by
  induction rs with
  | nil =>
    intro s r
    simp only [List.nil_append, runEnc]
    exact encoderStep_rem s r
  | cons a rs ih =>
    intro s r
    simp only [List.cons_append, runEnc]
    exact ih (encoderStep s a).1 r

/-- C2: for every encoder poll, a positive delta yields `delta / 4`
right-step intents, a negative delta yields `(-delta) / 4` left-step
intents (C++ integer division of the nonnegative magnitude), and a zero
delta yields no intent. -/
theorem encoder_direction_count (s : S) (curr : Int) :
    (0 < curr - s.prev_pos →
      (encoderStep s curr).2.1.length = (curr - s.prev_pos).toNat / 4 ∧
      ∀ x ∈ (encoderStep s curr).2.1, ∃ b, x = Intent.stepRight b) ∧
    (curr - s.prev_pos < 0 →
      (encoderStep s curr).2.1.length = (-(curr - s.prev_pos)).toNat / 4 ∧
      ∀ x ∈ (encoderStep s curr).2.1, ∃ b, x = Intent.stepLeft b) ∧
    (curr - s.prev_pos = 0 → (encoderStep s curr).2.1 = []) := by
  refine ⟨fun h => ?_, fun h => ?_, fun h => ?_⟩
  · rw [encoderStep_pos s curr h]
    exact ⟨emitSteps_length _ _ _, fun x hx => emitSteps_mem _ _ _ x hx⟩
  · rw [encoderStep_neg s curr h]
    exact ⟨emitSteps_length _ _ _, fun x hx => emitSteps_mem _ _ _ x hx⟩
  · rw [encoderStep_zero s curr h]

/-- C2 witness: nine raw ticks to the right give two right-step intents. -/
theorem encoder_direction_count_witness :
    (encoderStep (initS 0 false) 9).2.1.length = 2 ∧
    ∀ x ∈ (encoderStep (initS 0 false) 9).2.1, ∃ b, x = Intent.stepRight b := by
  have h := (encoder_direction_count (initS 0 false) 9).1 (by decide)
  exact ⟨by rw [h.1]; decide, h.2⟩

/-- C4: every poll emits `|delta| / 4` step intents, advances the stored
previous position by exactly `4 * netSteps`, leaves a remainder of fewer
than 4 raw ticks pending, and over any reading sequence whose total
travel is a multiple of 4 the emitted net step count is exactly that
travel divided by 4 (no drift). -/
theorem encoder_remainder_no_drift :
    (∀ (s : S) (curr : Int),
      (encoderStep s curr).2.1.length = (curr - s.prev_pos).natAbs / 4 ∧
      (encoderStep s curr).1.prev_pos =
        s.prev_pos + 4 * netSteps (encoderStep s curr).2.1 ∧
      (curr - (encoderStep s curr).1.prev_pos).natAbs < 4) ∧
    (∀ (s : S) (rs : List Int) (r : Int), (4 : Int) ∣ r - s.prev_pos →
      netSteps (runEnc s (rs ++ [r])).2 = (r - s.prev_pos) / 4) := by
  refine ⟨fun s curr => ⟨encoderStep_length s curr, encoderStep_prev s curr,
    encoderStep_rem s curr⟩, fun s rs r hdvd => ?_⟩
  have h1 := runEnc_prev (rs ++ [r]) s
  have h2 := runEnc_last_rem rs s r
  omega

/-- C4 witness: partial rotations 3, then 3 more, then 2 more (total 8 raw
ticks) yield a net of exactly 2 steps. -/
theorem encoder_remainder_no_drift_witness :
    netSteps (runEnc (initS 0 false) ([3, 6] ++ [8])).2 = (8 - 0) / 4 := by
  exact encoder_remainder_no_drift.2 (initS 0 false) [3, 6] 8 (by decide)

/-! ## Intent composition order (C1) -/

/-- The per-poll composition in the order the spec's §4.5 prescribes,
stated from the spec's words for comparison with `loopStep`: encoder step
intents first, then touch-driven intents, then button-driven intents,
threading the state in that same order. -/
def specOrderLoopStep (s : S) (i : PollInput) : S × List Intent × List Int :=
  let e := encoderStep s i.enc
  let t := loopTouch e.1 i.touch i.x i.w
  let b := buttonStep t.1 i.wasP i.wasR i.pf i.now
  (b.1, e.2.1 ++ t.2.1 ++ b.2.1, e.2.2 ++ t.2.2 ++ b.2.2)

/-- C1 counterexample: a poll that both begins a touch in the ESC zone and
sees four raw encoder ticks.  The code emits the touch-driven Escape
before the encoder step intent, while the claimed order would put the
encoder step first. -/
theorem loop_order_counterexample :
    (loopStep (initS 0 false)
        ⟨TouchState.touch_begin, 10, 240, 4, false, false, false, 0⟩).2.1
      = [Intent.escape, Intent.stepRight false] ∧
    (specOrderLoopStep (initS 0 false)
        ⟨TouchState.touch_begin, 10, 240, 4, false, false, false, 0⟩).2.1
      = [Intent.stepRight false, Intent.escape] ∧
    (loopStep (initS 0 false)
        ⟨TouchState.touch_begin, 10, 240, 4, false, false, false, 0⟩).2.1
      ≠ (specOrderLoopStep (initS 0 false)
          ⟨TouchState.touch_begin, 10, 240, 4, false, false, false, 0⟩).2.1 := by
  decide

/-- C1 (amended): in every poll iteration the emitted intents are the
touch-driven intents first, then the encoder step intents, then the
button-driven intents, concatenated without dropping or reordering. -/
theorem loop_intent_order (s : S) (i : PollInput) :
    (loopStep s i).2.1 =
      (loopTouch s i.touch i.x i.w).2.1
        ++ (encoderStep (loopTouch s i.touch i.x i.w).1 i.enc).2.1
        ++ (buttonStep (encoderStep (loopTouch s i.touch i.x i.w).1 i.enc).1
              i.wasP i.wasR i.pf i.now).2.1 := rfl

/-! ## Shift lock (C3) -/

theorem held_ms_lt (ps now : Nat) (h : now - ps < 3000) :
    held_ms ps now < 3000 := by
  unfold held_ms
  split
  · exact h
  · omega

/-- C3: while the shift lock is active, the very next modifier-sensitive
emission is shifted and the lock is cleared by that same emission: in an
encoder batch only the first step is shifted and the rest of the batch is
unmodified, and a short-press Enter is shifted with the lock cleared. -/
theorem shift_lock_one_shot (s : S) (curr : Int) (pf : Bool) (now : Nat) :
    (s.shift_lock = true → 4 ≤ curr - s.prev_pos →
      (encoderStep s curr).2.1 =
        Intent.stepRight true ::
          List.replicate ((curr - s.prev_pos).toNat / 4 - 1) (Intent.stepRight false) ∧
      (encoderStep s curr).1.shift_lock = false) ∧
    (s.shift_lock = true → curr - s.prev_pos ≤ -4 →
      (encoderStep s curr).2.1 =
        Intent.stepLeft true ::
          List.replicate ((-(curr - s.prev_pos)).toNat / 4 - 1) (Intent.stepLeft false) ∧
      (encoderStep s curr).1.shift_lock = false) ∧
    (s.shift_lock = true → s.delete_mode_active = false → pf = false →
      now - s.press_start_ms < 3000 →
      (buttonStep s false true pf now).2.1 = [Intent.enter true] ∧
      (buttonStep s false true pf now).1.shift_lock = false) := by
  refine ⟨fun hsh h => ?_, fun hsh h => ?_, fun hsh hmode hpf hlt => ?_⟩
  · rw [encoderStep_pos s curr (by omega)]
    have hsteps : 1 ≤ (curr - s.prev_pos).toNat / 4 := by omega
    obtain ⟨k, hk⟩ := Nat.exists_eq_add_of_le hsteps
    rw [hsh, hk]
    rw [show 1 + k = k + 1 from by omega, emitSteps_true_succ]
    simp
  · rw [encoderStep_neg s curr (by omega)]
    have hsteps : 1 ≤ (-(curr - s.prev_pos)).toNat / 4 := by omega
    obtain ⟨k, hk⟩ := Nat.exists_eq_add_of_le hsteps
    rw [hsh, hk]
    rw [show 1 + k = k + 1 from by omega, emitSteps_true_succ]
    simp
  · have hheld : held_ms s.press_start_ms now < 3000 := held_ms_lt _ _ hlt
    simp only [buttonStep, hmode, hpf, hsh, Bool.false_eq_true, false_and, and_false,
      if_false, if_pos trivial, Bool.not_false, and_true, true_and, if_true, if_neg,
      not_false_iff]
    simp [hmode, hheld, hsh]

/-- C3 witness: with the lock set, eight right ticks give one shifted step
then one plain step and the lock reads clear; a short-press release gives a
shifted Enter and clears the lock. -/
theorem shift_lock_one_shot_witness :
    ((encoderStep ⟨0, true, -1, 100, 0, false⟩ 8).2.1 =
      [Intent.stepRight true, Intent.stepRight false] ∧
     (encoderStep ⟨0, true, -1, 100, 0, false⟩ 8).1.shift_lock = false) ∧
    ((buttonStep ⟨0, true, -1, 100, 0, false⟩ false true false 2000).2.1 =
      [Intent.enter true] ∧
     (buttonStep ⟨0, true, -1, 100, 0, false⟩ false true false 2000).1.shift_lock = false) := by
  refine ⟨?_, ?_⟩
  · have h := (shift_lock_one_shot ⟨0, true, -1, 100, 0, false⟩ 8 false 0).1 rfl (by decide)
    exact ⟨by rw [h.1]; decide, h.2⟩
  · exact (shift_lock_one_shot ⟨0, true, -1, 100, 0, false⟩ 0 false 2000).2.2 rfl rfl rfl
      (by decide)

/-! ## Per-poll button scenarios -/

theorem loopTouch_none (s : S) (x w : Int) (hzone : s.last_touch_zone = -1) :
    loopTouch s TouchState.none x w = (s, [], []) := by
  simp [loopTouch, touchZone, hzone]

theorem buttonStep_idle (s : S) (pf : Bool) (now : Nat)
    (hmode : s.delete_mode_active = false) (hpf : pf = false) :
    buttonStep s false false pf now = (s, [], []) := by
  simp [buttonStep, hmode, hpf]

theorem buttonStep_press (s : S) (now : Nat) (hmode : s.delete_mode_active = false) :
    buttonStep s true false false now = ({ s with press_start_ms := now }, [], []) := by
  simp [buttonStep, hmode]

theorem buttonStep_cross (s : S) (now : Nat) (hmode : s.delete_mode_active = false) :
    buttonStep s false false true now =
      ({ s with delete_mode_active := true, last_delete_ms := now },
        [Intent.delete], []) := by
  simp [buttonStep, hmode]

theorem buttonStep_repeat (s : S) (pf : Bool) (now : Nat)
    (hmode : s.delete_mode_active = true) :
    buttonStep s false false pf now =
      if 500 ≤ now - s.last_delete_ms then
        ({ s with last_delete_ms := now }, [Intent.delete], [])
      else (s, [], []) := by
  by_cases hc : 500 ≤ now - s.last_delete_ms
  · simp [buttonStep, hmode, hc]
  · simp [buttonStep, hmode, hc]

theorem buttonStep_release_long (s : S) (now : Nat)
    (hmode : s.delete_mode_active = true) (hps : s.press_start_ms ≠ 0)
    (h : 3000 ≤ now - s.press_start_ms) :
    buttonStep s false true false now =
      ({ s with delete_mode_active := false, last_delete_ms := 0, press_start_ms := 0 },
        [], []) := by
  have hheld : ¬(held_ms s.press_start_ms now < 3000) := by
    unfold held_ms
    simp [hps]
    omega
  simp [buttonStep, hmode, hheld]

theorem buttonStep_release_short (s : S) (now : Nat)
    (hmode : s.delete_mode_active = false) (hheld : held_ms s.press_start_ms now < 3000) :
    buttonStep s false true false now =
      if s.shift_lock then
        ({ s with press_start_ms := 0, shift_lock := false }, [Intent.enter true], [-1])
      else ({ s with press_start_ms := 0 }, [Intent.enter false], []) := by
  by_cases hsh : s.shift_lock
  · simp [buttonStep, hmode, hheld, hsh]
  · simp [buttonStep, hmode, hheld, hsh]

theorem deviceStep_hold_quiet (s : S) (tp t : Nat) (e : Int)
    (hprev : s.prev_pos = e) (hzone : s.last_touch_zone = -1)
    (hmode : s.delete_mode_active = false) (hlt : t - tp < 3000) :
    deviceStep ⟨s, ⟨true, tp⟩⟩ (quietInput e true t) = (⟨s, ⟨true, tp⟩⟩, [], []) := by
  have hpf : btnPressedFor ⟨true, tp⟩ 3000 t = false := by
    simp [btnPressedFor]
    omega
  simp [deviceStep, quietInput, btnUpdate, btnWasPressed, btnWasReleased, hpf, loopStep,
    loopTouch_none s 0 240 hzone, encoderStep_zero s e (by omega),
    buttonStep_idle s false t hmode rfl]

theorem deviceStep_press (s : S) (c tp : Nat) (e : Int)
    (hprev : s.prev_pos = e) (hzone : s.last_touch_zone = -1)
    (hmode : s.delete_mode_active = false) :
    deviceStep ⟨s, ⟨false, c⟩⟩ (quietInput e true tp) =
      (⟨{ s with press_start_ms := tp }, ⟨true, tp⟩⟩, [], []) := by
  have hpf : btnPressedFor ⟨true, tp⟩ 3000 tp = false := by
    simp [btnPressedFor]
  simp [deviceStep, quietInput, btnUpdate, btnWasPressed, btnWasReleased, hpf, loopStep,
    loopTouch_none s 0 240 hzone, encoderStep_zero s e (by omega),
    buttonStep_press s tp hmode]

theorem deviceStep_cross (s : S) (tp t : Nat) (e : Int)
    (hprev : s.prev_pos = e) (hzone : s.last_touch_zone = -1)
    (hmode : s.delete_mode_active = false) (h : 3000 ≤ t - tp) :
    deviceStep ⟨s, ⟨true, tp⟩⟩ (quietInput e true t) =
      (⟨{ s with delete_mode_active := true, last_delete_ms := t }, ⟨true, tp⟩⟩,
        [Intent.delete], []) := by
  have hpf : btnPressedFor ⟨true, tp⟩ 3000 t = true := by
    simp [btnPressedFor]
    omega
  simp [deviceStep, quietInput, btnUpdate, btnWasPressed, btnWasReleased, hpf, loopStep,
    loopTouch_none s 0 240 hzone, encoderStep_zero s e (by omega),
    buttonStep_cross s t hmode]

theorem deviceStep_repeat (s : S) (tp t : Nat) (e : Int)
    (hprev : s.prev_pos = e) (hzone : s.last_touch_zone = -1)
    (hmode : s.delete_mode_active = true) :
    deviceStep ⟨s, ⟨true, tp⟩⟩ (quietInput e true t) =
      if 500 ≤ t - s.last_delete_ms then
        (⟨{ s with last_delete_ms := t }, ⟨true, tp⟩⟩, [Intent.delete], [])
      else (⟨s, ⟨true, tp⟩⟩, [], []) := by
  by_cases hc : 500 ≤ t - s.last_delete_ms
  · simp [deviceStep, quietInput, btnUpdate, btnWasPressed, btnWasReleased, loopStep,
      loopTouch_none s 0 240 hzone, encoderStep_zero s e (by omega),
      buttonStep_repeat s _ t hmode, hc]
  · simp [deviceStep, quietInput, btnUpdate, btnWasPressed, btnWasReleased, loopStep,
      loopTouch_none s 0 240 hzone, encoderStep_zero s e (by omega),
      buttonStep_repeat s _ t hmode, hc]

theorem deviceStep_release_short (s : S) (tp t : Nat) (e : Int)
    (hprev : s.prev_pos = e) (hzone : s.last_touch_zone = -1)
    (hmode : s.delete_mode_active = false) (h : t - s.press_start_ms < 3000) :
    deviceStep ⟨s, ⟨true, tp⟩⟩ (quietInput e false t) =
      (⟨{ s with press_start_ms := 0, shift_lock := false }, ⟨false, t⟩⟩,
        [Intent.enter s.shift_lock], if s.shift_lock then [-1] else []) := by
  have hpf : btnPressedFor ⟨false, t⟩ 3000 t = false := by
    simp [btnPressedFor]
  by_cases hsh : s.shift_lock
  · simp [deviceStep, quietInput, btnUpdate, btnWasPressed, btnWasReleased, hpf, loopStep,
      loopTouch_none s 0 240 hzone, encoderStep_zero s e (by omega),
      buttonStep_release_short s t hmode (held_ms_lt _ _ h), hsh]
  · simp only [Bool.not_eq_true] at hsh
    simp [deviceStep, quietInput, btnUpdate, btnWasPressed, btnWasReleased, hpf, loopStep,
      loopTouch_none s 0 240 hzone, encoderStep_zero s e (by omega),
      buttonStep_release_short s t hmode (held_ms_lt _ _ h), hsh]

theorem deviceStep_release_long (s : S) (tp t : Nat) (e : Int)
    (hprev : s.prev_pos = e) (hzone : s.last_touch_zone = -1)
    (hmode : s.delete_mode_active = true) (hps : s.press_start_ms ≠ 0)
    (h : 3000 ≤ t - s.press_start_ms) :
    deviceStep ⟨s, ⟨true, tp⟩⟩ (quietInput e false t) =
      (⟨{ s with delete_mode_active := false, last_delete_ms := 0, press_start_ms := 0 },
          ⟨false, t⟩⟩, [], []) := by
  have hpf : btnPressedFor ⟨false, t⟩ 3000 t = false := by
    simp [btnPressedFor]
  simp [deviceStep, quietInput, btnUpdate, btnWasPressed, btnWasReleased, hpf, loopStep,
    loopTouch_none s 0 240 hzone, encoderStep_zero s e (by omega),
    buttonStep_release_long s t hmode hps h]

/-! ## Poll traces -/

theorem runPolls_append (l1 : List RawInput) :
    ∀ (d : Dev) (l2 : List RawInput),
      runPolls d (l1 ++ l2) =
        ((runPolls (runPolls d l1).1 l2).1,
          (runPolls d l1).2 ++ (runPolls (runPolls d l1).1 l2).2) := by
  induction l1 with
  | nil => intro d l2; simp [runPolls]
  | cons i l1 ih =>
    intro d l2
    simp [runPolls, ih]

theorem runPolls_hold_quiet (tp : Nat) (e : Int) (ts : List Nat) (s : S)
    (hprev : s.prev_pos = e) (hzone : s.last_touch_zone = -1)
    (hmode : s.delete_mode_active = false)
    (hts : ∀ t ∈ ts, t - tp < 3000) :
    runPolls ⟨s, ⟨true, tp⟩⟩ (ts.map fun t => quietInput e true t) =
      (⟨s, ⟨true, tp⟩⟩, []) := by
  induction ts with
  | nil => rfl
  | cons t ts ih =>
    simp only [List.map_cons, runPolls,
      deviceStep_hold_quiet s tp t e hprev hzone hmode (hts t (by simp))]
    rw [ih (fun u hu => hts u (by simp [hu]))]
    simp

theorem runPolls_repeat_mode (tp : Nat) (e : Int) (sh : Bool) (ps : Nat) (ts : List Nat) :
    ∀ ld0 : Nat, ∃ (ld : Nat) (ds : List Intent),
      runPolls ⟨⟨e, sh, -1, ps, ld0, true⟩, ⟨true, tp⟩⟩
          (ts.map fun t => quietInput e true t) =
        (⟨⟨e, sh, -1, ps, ld, true⟩, ⟨true, tp⟩⟩, ds) ∧
      ∀ x ∈ ds, x = Intent.delete := by
  induction ts with
  | nil =>
    intro ld0
    exact ⟨ld0, [], rfl, by simp⟩
  | cons t ts ih =>
    intro ld0
    by_cases hc : 500 ≤ t - ld0
    · obtain ⟨ld, ds, heq, hds⟩ := ih t
      refine ⟨ld, Intent.delete :: ds, ?_, ?_⟩
      · simp only [List.map_cons, runPolls,
          deviceStep_repeat ⟨e, sh, -1, ps, ld0, true⟩ tp t e rfl rfl rfl]
        rw [if_pos (by simpa using hc)]
        simp only
        rw [heq]
        simp
      · intro x hx
        rcases List.mem_cons.mp hx with h | h
        · exact h
        · exact hds x h
    · obtain ⟨ld, ds, heq, hds⟩ := ih ld0
      refine ⟨ld, ds, ?_, hds⟩
      simp only [List.map_cons, runPolls,
        deviceStep_repeat ⟨e, sh, -1, ps, ld0, true⟩ tp t e rfl rfl rfl]
      rw [if_neg (by simpa using hc)]
      simp only
      rw [heq]
      simp

/-- C5: for a press at `tp > 0` (recorded press start) followed by held
polls and a release: if every held poll and the release happen before
3000 ms of hold, the whole episode emits exactly one Enter and no Delete;
if the hold reaches 3000 ms at a poll `tc`, that poll emits exactly one
Delete (and is the only emission up to that point), and no Enter is ever
emitted for that press, including at the release. -/
theorem button_press_classification (sh : Bool) (e : Int) (c tp tc tr : Nat)
    (pre post : List Nat) :
    (0 < tp → (∀ t ∈ pre, t - tp < 3000) → tr - tp < 3000 →
      (runPolls ⟨initS e sh, ⟨false, c⟩⟩
          (quietInput e true tp :: ((pre.map fun t => quietInput e true t)
            ++ [quietInput e false tr]))).2 = [Intent.enter sh]) ∧
    ((∀ t ∈ pre, t - tp < 3000) → 3000 ≤ tc - tp →
      (runPolls ⟨initS e sh, ⟨false, c⟩⟩
          (quietInput e true tp :: ((pre.map fun t => quietInput e true t)
            ++ [quietInput e true tc]))).2 = [Intent.delete]) ∧
    (0 < tp → (∀ t ∈ pre, t - tp < 3000) → 3000 ≤ tc - tp → 3000 ≤ tr - tp →
      ∃ ds, (runPolls ⟨initS e sh, ⟨false, c⟩⟩
          (quietInput e true tp :: ((pre.map fun t => quietInput e true t)
            ++ quietInput e true tc :: ((post.map fun t => quietInput e true t)
            ++ [quietInput e false tr])))).2 = Intent.delete :: ds ∧
        ∀ x ∈ ds, x = Intent.delete) := by
  have hpress := deviceStep_press (initS e sh) c tp e rfl rfl rfl
  have hlit : ({ initS e sh with press_start_ms := tp } : S) = ⟨e, sh, -1, tp, 0, false⟩ :=
    rfl
  rw [hlit] at hpress
  refine ⟨fun htp hpre hr => ?_, fun hpre hc3 => ?_, fun htp hpre hc3 hr => ?_⟩
  · simp only [runPolls, hpress, List.append_eq]
    rw [runPolls_append,
      runPolls_hold_quiet tp e pre ⟨e, sh, -1, tp, 0, false⟩ rfl rfl rfl hpre]
    simp only [runPolls,
      deviceStep_release_short ⟨e, sh, -1, tp, 0, false⟩ tp tr e rfl rfl rfl hr]
    simp
  · simp only [runPolls, hpress, List.append_eq]
    rw [runPolls_append,
      runPolls_hold_quiet tp e pre ⟨e, sh, -1, tp, 0, false⟩ rfl rfl rfl hpre]
    simp only [runPolls,
      deviceStep_cross ⟨e, sh, -1, tp, 0, false⟩ tp tc e rfl rfl rfl hc3]
    simp
  · obtain ⟨ld, ds, heq, hds⟩ := runPolls_repeat_mode tp e sh tp post tc
    refine ⟨ds, ?_, hds⟩
    have hcross := deviceStep_cross ⟨e, sh, -1, tp, 0, false⟩ tp tc e rfl rfl rfl hc3
    have hlit2 : ({ (⟨e, sh, -1, tp, 0, false⟩ : S) with
        delete_mode_active := true, last_delete_ms := tc } : S) =
        ⟨e, sh, -1, tp, tc, true⟩ := rfl
    rw [hlit2] at hcross
    simp only [runPolls, hpress, List.append_eq]
    rw [runPolls_append,
      runPolls_hold_quiet tp e pre ⟨e, sh, -1, tp, 0, false⟩ rfl rfl rfl hpre]
    simp only [runPolls, hcross, List.append_eq]
    rw [runPolls_append, heq]
    simp only [runPolls,
      deviceStep_release_long ⟨e, sh, -1, tp, ld, true⟩ tp tr e rfl rfl rfl
        (show tp ≠ 0 by omega) hr]
    simp

/-- C5 witness: press at 5 ms, held poll at 1000 ms, release at 3004 ms
(2999 ms hold) gives exactly one Enter; with the hold instead reaching a
poll at 3005 ms (3000 ms hold) exactly one Delete is emitted, and holding
through 4000 ms then releasing at 4500 ms emits deletes only. -/
theorem button_press_classification_witness :
    (runPolls ⟨initS 0 false, ⟨false, 0⟩⟩
        (quietInput 0 true 5 :: (([1000].map fun t => quietInput 0 true t)
          ++ [quietInput 0 false 3004]))).2 = [Intent.enter false] ∧
    (runPolls ⟨initS 0 false, ⟨false, 0⟩⟩
        (quietInput 0 true 5 :: (([1000].map fun t => quietInput 0 true t)
          ++ [quietInput 0 true 3005]))).2 = [Intent.delete] ∧
    ∃ ds, (runPolls ⟨initS 0 false, ⟨false, 0⟩⟩
        (quietInput 0 true 5 :: (([1000].map fun t => quietInput 0 true t)
          ++ quietInput 0 true 3005 :: (([4000].map fun t => quietInput 0 true t)
          ++ [quietInput 0 false 4500])))).2 = Intent.delete :: ds ∧
      ∀ x ∈ ds, x = Intent.delete := by
  exact ⟨(button_press_classification false 0 0 5 3005 3004 [1000] [4000]).1
      (by decide) (by decide) (by decide),
    (button_press_classification false 0 0 5 3005 3004 [1000] [4000]).2.1
      (by decide) (by decide),
    (button_press_classification false 0 0 5 3005 4500 [1000] [4000]).2.2
      (by decide) (by decide) (by decide) (by decide)⟩

/-- C6: in long-press repeat mode, a poll with the button still held emits
one more Delete exactly when at least 500 ms have elapsed since the last
Delete (refreshing that timestamp), and nothing otherwise; releasing the
button exits repeat mode immediately with no further intent; a concrete
hold of 3000 ms + 1200 ms (press at 1 ms, polls every 100 ms, release edge
at 4201 ms) emits exactly three Deletes: the immediate one and two
repeats. -/
theorem long_press_repeat_cadence :
    (∀ (s : S) (tp t : Nat) (e : Int),
      s.prev_pos = e → s.last_touch_zone = -1 → s.delete_mode_active = true →
      (500 ≤ t - s.last_delete_ms →
        (deviceStep ⟨s, ⟨true, tp⟩⟩ (quietInput e true t)).2.1 = [Intent.delete] ∧
        (deviceStep ⟨s, ⟨true, tp⟩⟩ (quietInput e true t)).1.s.last_delete_ms = t) ∧
      (t - s.last_delete_ms < 500 →
        (deviceStep ⟨s, ⟨true, tp⟩⟩ (quietInput e true t)).2.1 = [])) ∧
    (∀ (s : S) (tp t : Nat) (e : Int),
      s.prev_pos = e → s.last_touch_zone = -1 → s.delete_mode_active = true →
      s.press_start_ms = tp → tp ≠ 0 → 3000 ≤ t - tp →
      (deviceStep ⟨s, ⟨true, tp⟩⟩ (quietInput e false t)).2.1 = [] ∧
      (deviceStep ⟨s, ⟨true, tp⟩⟩ (quietInput e false t)).1.s.delete_mode_active = false) ∧
    (runPolls ⟨initS 0 false, ⟨false, 0⟩⟩
        ((List.range 43).map fun k => quietInput 0 (decide (1 + 100 * k < 4201))
          (1 + 100 * k))).2
      = List.replicate 3 Intent.delete := by
  refine ⟨fun s tp t e h1 h2 h3 => ⟨fun hc => ?_, fun hc => ?_⟩,
    fun s tp t e h1 h2 h3 hps htp hr => ?_, ?_⟩
  · rw [deviceStep_repeat s tp t e h1 h2 h3, if_pos hc]
    exact ⟨rfl, rfl⟩
  · rw [deviceStep_repeat s tp t e h1 h2 h3, if_neg (by omega)]
  · have h := deviceStep_release_long s tp t e h1 h2 h3
      (by omega) (by omega)
    rw [h]
    exact ⟨rfl, rfl⟩
  · decide

/-- C6 witness: a repeat-mode poll 500 ms after the last Delete emits
exactly one more Delete and refreshes the timestamp. -/
theorem long_press_repeat_cadence_witness :
    (deviceStep ⟨⟨0, false, -1, 1, 3001, true⟩, ⟨true, 1⟩⟩
        (quietInput 0 true 3501)).2.1 = [Intent.delete] ∧
    (deviceStep ⟨⟨0, false, -1, 1, 3001, true⟩, ⟨true, 1⟩⟩
        (quietInput 0 true 3501)).1.s.last_delete_ms = 3501 := by
  exact (long_press_repeat_cadence.1 ⟨0, false, -1, 1, 3001, true⟩ 1 3501 0
    rfl rfl rfl).1 (by decide)

/-! ## Touch claims -/

/-- C7: a touch-begin sample in the ESC zone emits exactly one Escape
intent and leaves the shift lock untouched (Escape is never
shift-modified); a touch-begin in the Shift zone emits no intent, toggles
the shift lock and redraws (visual feedback only); a held touch sample
emits nothing until the touch ends and a new one begins. -/
theorem touch_begin_actions (s : S) (x w : Int) :
    (touchZone TouchState.touch_begin x w = 0 →
      (loopTouch s TouchState.touch_begin x w).2.1 = [Intent.escape] ∧
      (loopTouch s TouchState.touch_begin x w).1.shift_lock = s.shift_lock) ∧
    (touchZone TouchState.touch_begin x w = 1 →
      (loopTouch s TouchState.touch_begin x w).2.1 = [] ∧
      (loopTouch s TouchState.touch_begin x w).1.shift_lock = !s.shift_lock ∧
      (loopTouch s TouchState.touch_begin x w).2.2 ≠ []) ∧
    ((loopTouch s TouchState.touch_hold x w).2.1 = [] ∧
      (loopTouch s TouchState.touch_hold x w).1.shift_lock = s.shift_lock) := by
  refine ⟨fun hz => ?_, fun hz => ?_, ?_⟩
  · unfold loopTouch
    rw [hz]
    by_cases h0 : (0 : Int) = s.last_touch_zone
    · simp [← h0]
    · simp [h0]
  · unfold loopTouch
    rw [hz]
    by_cases h1 : (1 : Int) = s.last_touch_zone
    · simp [← h1]
    · simp [h1]
  · unfold loopTouch
    by_cases hl : touchZone TouchState.touch_hold x w = s.last_touch_zone
    · simp [hl]
    · simp [hl]

/-- C7 witness: touch begin at x = 10 on the 240-wide display emits one
Escape and keeps the lock; at x = 200 it emits nothing and toggles the
lock with a redraw. -/
theorem touch_begin_actions_witness :
    ((loopTouch (initS 0 false) TouchState.touch_begin 10 240).2.1 = [Intent.escape] ∧
     (loopTouch (initS 0 false) TouchState.touch_begin 10 240).1.shift_lock = false) ∧
    ((loopTouch (initS 0 false) TouchState.touch_begin 200 240).2.1 = [] ∧
     (loopTouch (initS 0 false) TouchState.touch_begin 200 240).1.shift_lock = true ∧
     (loopTouch (initS 0 false) TouchState.touch_begin 200 240).2.2 ≠ []) := by
  exact ⟨(touch_begin_actions (initS 0 false) 10 240).1 (by decide),
    (touch_begin_actions (initS 0 false) 200 240).2.1 (by decide)⟩

/-- C8: for a positive display width `w`, the computed zone is ESC exactly
when the touch sample is active (state other than `none`) and
`0 ≤ x < w / 2`, Shift exactly when it is active and `w / 2 ≤ x < w`, and
none (`-1`) in every other case, including an inactive touch and any
coordinate outside `[0, w)`. -/
theorem touch_zone_classification (ts : TouchState) (x w : Int) (hw : 0 < w) :
    (touchZone ts x w = 0 ↔ ts ≠ TouchState.none ∧ 0 ≤ x ∧ x < w / 2) ∧
    (touchZone ts x w = 1 ↔ ts ≠ TouchState.none ∧ w / 2 ≤ x ∧ x < w) ∧
    (¬(ts ≠ TouchState.none ∧ 0 ≤ x ∧ x < w / 2) →
      ¬(ts ≠ TouchState.none ∧ w / 2 ≤ x ∧ x < w) →
      touchZone ts x w = -1) := by
  have hhalf : 0 ≤ w / 2 ∧ w / 2 ≤ w := by omega
  by_cases hts : ts = TouchState.none
  · subst hts
    refine ⟨?_, ?_, fun _ _ => ?_⟩
    · simp [touchZone]
    · simp [touchZone]
    · simp [touchZone]
  · unfold touchZone
    rw [if_pos hts]
    by_cases hrange : 0 ≤ x ∧ x < w
    · rw [if_pos hrange]
      by_cases hlt : x < w / 2
      · rw [if_pos hlt]
        refine ⟨⟨fun _ => ⟨hts, hrange.1, hlt⟩, fun _ => rfl⟩,
          ⟨fun h => absurd h (by decide), fun hB => absurd hB.2.1 (by omega)⟩,
          fun hA _ => absurd ⟨hts, hrange.1, hlt⟩ hA⟩
      · rw [if_neg hlt]
        refine ⟨⟨fun h => absurd h (by decide), fun hA => absurd hA.2.2 hlt⟩,
          ⟨fun _ => ⟨hts, by omega, hrange.2⟩, fun _ => rfl⟩,
          fun _ hB => absurd ⟨hts, by omega, hrange.2⟩ hB⟩
    · rw [if_neg hrange]
      refine ⟨⟨fun h => absurd h (by decide),
          fun hA => absurd (⟨hA.2.1, by omega⟩ : 0 ≤ x ∧ x < w) hrange⟩,
        ⟨fun h => absurd h (by decide),
          fun hB => absurd (⟨by omega, hB.2.2⟩ : 0 ≤ x ∧ x < w) hrange⟩,
        fun _ _ => rfl⟩

/-- C8 witness: on the 240-wide display with an active touch, x = 10 is the
ESC zone, x = 200 is the Shift zone, and x = 400 or an inactive touch is
zone none. -/
theorem touch_zone_classification_witness :
    touchZone TouchState.touch_begin 10 240 = 0 ∧
    touchZone TouchState.touch_begin 200 240 = 1 ∧
    touchZone TouchState.touch_begin 400 240 = -1 ∧
    touchZone TouchState.none 100 240 = -1 := by
  refine ⟨(touch_zone_classification TouchState.touch_begin 10 240 (by decide)).1.mpr
      (by decide),
    (touch_zone_classification TouchState.touch_begin 200 240 (by decide)).2.1.mpr
      (by decide),
    (touch_zone_classification TouchState.touch_begin 400 240 (by decide)).2.2
      (by decide) (by decide),
    (touch_zone_classification TouchState.none 100 240 (by decide)).2.2
      (by decide) (by decide)⟩

/-- C9: a release handled with no recorded press start
(`press_start_ms = 0`, long-press mode never entered) treats the elapsed
hold as zero and therefore takes the short-click path, emitting one Enter. -/
theorem release_without_press_start (s : S) (pf : Bool) (now : Nat)
    (hps : s.press_start_ms = 0) (hmode : s.delete_mode_active = false)
    (hpf : pf = false) :
    held_ms s.press_start_ms now = 0 ∧
    (buttonStep s false true pf now).2.1 = [Intent.enter s.shift_lock] := by
  subst hpf
  refine ⟨by simp [held_ms, hps], ?_⟩
  rw [buttonStep_release_short s now hmode (by simp [held_ms, hps])]
  by_cases hsh : s.shift_lock
  · simp [hsh]
  · simp only [Bool.not_eq_true] at hsh
    simp [hsh]

/-- C9 witness: with no recorded press start, a release at any time (here
999999 ms) reads a zero hold and emits the Enter of a short click. -/
theorem release_without_press_start_witness :
    held_ms (initS 0 false).press_start_ms 999999 = 0 ∧
    (buttonStep (initS 0 false) false true false 999999).2.1 = [Intent.enter false] := by
  exact release_without_press_start (initS 0 false) false 999999 rfl rfl rfl

/-- C10: any touch sample other than a touch begin (a held, dragged or
ended touch, or no touch) emits no intent and leaves the shift lock alone:
it only updates the displayed zone, so a slide between zones during one
continuous touch triggers neither zone's edge action. -/
theorem slide_updates_display_only (s : S) (ts : TouchState) (x w : Int)
    (h : ts ≠ TouchState.touch_begin) :
    (loopTouch s ts x w).2.1 = [] ∧
    (loopTouch s ts x w).1 = { s with last_touch_zone := touchZone ts x w } := by
  by_cases hl : touchZone ts x w = s.last_touch_zone
  · exact ⟨by simp [loopTouch, h, hl], by simp [loopTouch, h, hl]⟩
  · exact ⟨by simp [loopTouch, h, hl], by simp [loopTouch, h, hl]⟩

/-- C10 witness: a touch held at x = 200 (Shift zone) after beginning in
the ESC zone emits nothing and only moves the displayed zone to 1. -/
theorem slide_updates_display_only_witness :
    (loopTouch ⟨0, false, 0, 0, 0, false⟩ TouchState.touch_hold 200 240).2.1 = [] ∧
    (loopTouch ⟨0, false, 0, 0, 0, false⟩ TouchState.touch_hold 200 240).1 =
      ⟨0, false, 1, 0, 0, false⟩ := by
  exact slide_updates_display_only ⟨0, false, 0, 0, 0, false⟩ TouchState.touch_hold
    200 240 (by decide)

end M5DialKeys
